import Mathlib

/-!
Verification of the spaceship-alpha entity-component simulation core.

This file shallowly embeds the systems of the repository (specs-based ECS,
gadget systems in src/src/block.rs, model synchronisation and deferred
removal in src/src/entity/mod.rs, asteroid field spawner in
src/src/entity/gameplay.rs) as pure Lean functions, and proves the spec
claims about them.  Component storages are modelled as association lists
keyed by entity index; f32 arithmetic is modelled over the exact
rationals; the random number generator and the trigonometric functions
are passed in as explicit parameters so the systems stay pure.
-/

/-- Entities are generation-stamped index handles in the source; the model
keys storages by the index and tracks liveness as an explicit set. -/
abbrev Entity := Nat

/-- A component storage: a finite association list keyed by entity. -/
abbrev Store (α : Type) := List (Entity × α)

/-- Storage read: the component attached to `e`, if any. -/
def lookupA {α : Type} : Store α → Entity → Option α
  | [], _ => Option.none
  | (k, v) :: rest, e => if k = e then some v else lookupA rest e

/-- Storage write: replace the component of `e` (or attach it). -/
def setA {α : Type} : Store α → Entity → α → Store α
  | [], e, v => [(e, v)]
  | (k, w) :: rest, e, v => if k = e then (k, v) :: rest else (k, w) :: setA rest e v

/-- Storage removal: detach the component of `e`. -/
def removeA {α : Type} : Store α → Entity → Store α
  | [], _ => []
  | (k, w) :: rest, e => if k = e then removeA rest e else (k, w) :: removeA rest e

/-- Modelled from the spec: the `InputAction` enumeration is declared in a
source file missing from src/ (only its uses in src/src/block.rs are
present).  Per the spec, the input abstraction exposes the currently
asserted action (none / mining / laser-fire). -/
inductive InputAction
  | noAction
  | mining
  | laser
  deriving DecidableEq

/-- Modelled from the spec: `InputManager` is declared in a source file
missing from src/.  Per the spec it exposes the asserted action and, when
applicable, a currently selected target entity; the core reads it as
read-only per-tick state. -/
structure InputManager where
  action : InputAction
  target : Option Entity
  deriving DecidableEq

/-- A 3-vector over the exact rationals (models `cgmath::Vector3<f32>`). -/
structure Vec3 where
  x : ℚ
  y : ℚ
  z : ℚ
  deriving DecidableEq

/-- `Transform` from src/src/entity/mod.rs: position, rotation, scale.
The quaternion is produced only by `from_angle_z` style writes in the
modelled systems, so the model stores the z-angle it encodes. -/
structure Transform where
  position : Vec3
  rotationZ : ℚ
  scale : Vec3
  deriving DecidableEq

/-- `Transform::from_position` from src/src/entity/mod.rs. -/
def Transform.from_position (x y z : ℚ) : Transform :=
  { position := ⟨x, y, z⟩, scale := ⟨1, 1, 1⟩, rotationZ := 0 }

/-- Modelled from the spec: `Transform::set_rotation_z` is declared in a
source file missing from src/ (its callers in src/src/block.rs and
src/src/entity/gameplay.rs are present).  Per the spec data model a
Transform is position, rotation and scale; this writes only the rotation,
to the quaternion for the given z-angle. -/
def Transform.set_rotation_z (t : Transform) (angle : ℚ) : Transform :=
  { t with rotationZ := angle }

/-! ## Cooler (src/src/block.rs, `CoolerSystem`) -/

/-- The fixed cooling rate `cool_rate` of `CoolerSystem::run`. -/
def cool_rate : ℚ := 13 / 100

/-- The loop body of `CoolerSystem::run` for one cooler entity: look up the
owning ship through `GadgetEntity`, and if that ship exists and its heat is
above zero, subtract the cooling rate, clamping at zero.  Ship storage is
modelled as the heat value per ship entity. -/
def coolerEntityStep (gadget_entities : Store Entity) (ships : Store ℚ) (entity : Entity) :
    Store ℚ :=
  match lookupA gadget_entities entity with
  | Option.none => ships
  | some shipE =>
    match lookupA ships shipE with
    | Option.none => ships
    | some heat =>
      if heat > 0 then
        if heat < cool_rate then setA ships shipE 0
        else setA ships shipE (heat - cool_rate)
      else ships

/-- `CoolerSystem::run`: the loop over all cooler entities. -/
def CoolerSystem_run (gadget_entities : Store Entity) (coolers : List Entity)
    (ships : Store ℚ) : Store ℚ :=
  coolers.foldl (fun s e => coolerEntityStep gadget_entities s e) ships

/-! ## Mining turret (src/src/block.rs, `MinerSystem`) -/

/-- `Miner::TOTAL_TIME` from src/src/block.rs. -/
def Miner_TOTAL_TIME : Nat := 120

/-- The counter/fire part of the `MinerSystem::run` loop body: given the
input and the current `shoot_time`, return the new counter and the spawn
target if a mining missile was spawned this tick. -/
def minerStep (input : InputManager) (shoot_time : Nat) : Nat × Option Entity :=
  if shoot_time > Miner_TOTAL_TIME then
    if input.action = InputAction.mining then
      match input.target with
      | some target => (0, some target)
      | Option.none => (shoot_time, Option.none)
    else (shoot_time, Option.none)
  else (shoot_time + 1, Option.none)

/-- Number of missiles spawned by one miner over a stream of per-tick
inputs, starting from counter `s`. -/
def minerFires : Nat → List InputManager → Nat
  | _, [] => 0
  | s, i :: rest =>
    let r := minerStep i s
    (if r.2.isSome then 1 else 0) + minerFires r.1 rest

/-! ## Full MinerSystem pass (src/src/block.rs, `MinerSystem::run`) -/

/-- Output of one `MinerSystem::run` pass: the mutated Transform and Miner
storages, the spawned mining missiles (target and spawn position), and the
entities whose change-tracked Transform was written (hence flagged
modified) this pass. -/
structure MinerRunOut where
  transforms : Store Transform
  miners : Store Nat
  spawned : List (Entity × Vec3)
  modified : List Entity
  deriving DecidableEq

/-- The `MinerSystem::run` loop body for one joined (Transform, Miner)
entity: write the transform rotation to `PI` unconditionally, then advance
the shoot counter, spawning a missile from `position + (0, 0, 0.5)` when
over threshold and commanded.  `pi` is the value of the `crate::PI`
constant, kept symbolic because the model works over ℚ. -/
def minerEntityStep (pi : ℚ) (input : InputManager) (out : MinerRunOut) (e : Entity) :
    MinerRunOut :=
  match lookupA out.transforms e, lookupA out.miners e with
  | some t, some s =>
    let t2 := t.set_rotation_z pi
    let r := minerStep input s
    { transforms := setA out.transforms e t2
      miners := setA out.miners e r.1
      spawned := out.spawned ++
        (match r.2 with
         | some target => [(target, ⟨t2.position.x, t2.position.y, t2.position.z + 1/2⟩)]
         | Option.none => [])
      modified := out.modified ++ [e] }
  | _, _ => out

/-- `MinerSystem::run`: iterate the loop body over every miner entity. -/
def MinerSystem_run (pi : ℚ) (input : InputManager) (transforms : Store Transform)
    (miners : Store Nat) : MinerRunOut :=
  (miners.map Prod.fst).foldl (minerEntityStep pi input) ⟨transforms, miners, [], []⟩

/-! ## Laser (src/src/block.rs, `LaserSystem`) -/

/-- A beam line component (`Line` from the entity module). -/
structure Line where
  pt : Vec3
  pt2 : Vec3
  color : Vec3
  deriving DecidableEq

/-- Modelled from the spec: `Health` and `Health::damage` are declared in
src/src/entity/objects.rs, which is missing from src/.  Per the spec,
Health is integer hit points and damage reduces it (an external system
handles zero or negative values). -/
def Health.damage (hp : Int) (amount : Int) : Int := hp - amount

/-- Trigonometric primitives used by `LaserSystem::run` (`atan2`, `cos`,
`sin` on f32).  Kept as explicit parameters so the embedding stays exact
over ℚ; no claim depends on their values. -/
structure TrigModel where
  atan2 : ℚ → ℚ → ℚ
  cos : ℚ → ℚ
  sin : ℚ → ℚ

/-- The mutable storages read and written by `LaserSystem::run`. -/
structure LaserWorld where
  gadget_entities : Store Entity
  ships : Store ℚ
  lines : Store Line
  healths : Store Int
  transforms : Store Transform
  deriving DecidableEq

/-- The `LaserSystem::run` loop body for one laser entity.  Returns
`Option.none` when the body would panic: the source unwraps
`transforms.get(target)` and `transforms.get_mut(entity)`, so an absent
Transform on either is fatal.  The raycast-hit gate is the literal
`Some(target) == raycast || true` of the source, which always passes. -/
def laserEntityStep (trig : TrigModel) (raycast : Vec3 → Vec3 → Option Entity)
    (input : InputManager) (st : LaserWorld) (entity : Entity) : Option LaserWorld :=
  match input.target with
  | some target =>
    match lookupA st.transforms target with
    | Option.none => Option.none
    | some ttrans =>
      match lookupA st.transforms entity with
      | Option.none => Option.none
      | some transform =>
        let target_pos := ttrans.position
        let sp0 : Vec3 := ⟨transform.position.x, transform.position.y,
          transform.position.z + 2/5⟩
        let angle_xy := trig.atan2 (sp0.y - target_pos.y) (sp0.x - target_pos.x)
        let radius : ℚ := 7/20
        let start_pos : Vec3 := ⟨sp0.x - radius * trig.cos angle_xy,
          sp0.y - radius * trig.sin angle_xy, sp0.z⟩
        let rc := raycast start_pos target_pos
        if rc == some target || true then
          let transforms2 := setA st.transforms entity (transform.set_rotation_z angle_xy)
          let lines2 := setA st.lines entity ⟨start_pos, target_pos, ⟨1, 0, 0⟩⟩
          let ships2 :=
            match lookupA st.gadget_entities entity with
            | some shipE =>
              match lookupA st.ships shipE with
              | some heat => setA st.ships shipE (heat + 3/10)
              | Option.none => st.ships
            | Option.none => st.ships
          let healths2 :=
            match lookupA st.healths target with
            | some hp => setA st.healths target (Health.damage hp 1)
            | Option.none => st.healths
          some { st with
            transforms := transforms2
            lines := lines2
            ships := ships2
            healths := healths2 }
        else
          some { st with lines := removeA st.lines entity }
  | Option.none => some { st with lines := removeA st.lines entity }

/-- The loop of `LaserSystem::run` over all laser entities, propagating a
panic as `Option.none`. -/
def laserLoop (trig : TrigModel) (raycast : Vec3 → Vec3 → Option Entity)
    (input : InputManager) : List Entity → LaserWorld → Option LaserWorld
  | [], st => some st
  | e :: rest, st =>
    match laserEntityStep trig raycast input st e with
    | some st2 => laserLoop trig raycast input rest st2
    | Option.none => Option.none

/-- `LaserSystem::run`: the system returns immediately when the laser
action is not asserted, otherwise it runs the loop body for every laser. -/
def LaserSystem_run (trig : TrigModel) (raycast : Vec3 → Vec3 → Option Entity)
    (input : InputManager) (lasers : List Entity) (st : LaserWorld) : Option LaserWorld :=
  if input.action ≠ InputAction.laser then some st
  else laserLoop trig raycast input lasers st

/-- A fixed trig model for concrete instances; no claim depends on it. -/
def cexTrig : TrigModel := ⟨fun _ _ => 0, fun _ => 1, fun _ => 0⟩

/-- A fixed raycast model for concrete instances (never reports a hit). -/
def cexRaycast : Vec3 → Vec3 → Option Entity := fun _ _ => Option.none

/-- A concrete beam line. -/
def cexLine : Line := ⟨⟨0, 0, 0⟩, ⟨1, 1, 1⟩, ⟨1, 0, 0⟩⟩

/-- World for the C4 counterexample: laser entity 0 already has a beam. -/
def cexWorldC4 : LaserWorld :=
  { gadget_entities := []
    ships := []
    lines := [(0, cexLine)]
    healths := []
    transforms := [] }

/-- World for the C6 scenario: one laser gadget (entity 0) on ship 10 at
heat 0, and a target (entity 1) at distance 5 with health 10. -/
def c6World : LaserWorld :=
  { gadget_entities := [(0, 10)]
    ships := [(10, 0)]
    lines := []
    healths := [(1, 10)]
    transforms := [(0, Transform.from_position 0 0 0), (1, Transform.from_position 5 0 0)] }

/-- World for the C9 counterexample: laser entity 0 has a Transform but
the input target (entity 1) does not — a stale or dead handle. -/
def c9World : LaserWorld :=
  { gadget_entities := []
    ships := []
    lines := []
    healths := []
    transforms := [(0, Transform.from_position 0 0 0)] }

/-! ## Model component and deferred removal (src/src/entity/mod.rs) -/

/-- The `Model` component: a mesh id plus the optional external render
handle (`model_id`), `None` until Model-Sync creates it. -/
structure ModelC where
  mesh_id : Nat
  model_id : Option Nat
  deriving DecidableEq

/-- `Model::new`: the handle starts out absent. -/
def Model_new (mesh_id : Nat) : ModelC := ⟨mesh_id, Option.none⟩

/-- Observable actions of the `ECS::maintain` flush: a `remove_model` call
on the render manager, or an entity deletion.  The entity is recorded on
the render call for specification bookkeeping. -/
inductive MaintainEvent
  | remove_model (mesh_id : Nat) (model : Nat) (entity : Entity)
  | delete (entity : Entity)
  deriving DecidableEq

/-- The state read by `ECS::maintain`: the removal queue, the Model
storage and the set of live entities. -/
structure MaintainState where
  to_be_removed : List Entity
  models : Store ModelC
  alive : List Entity
  deriving DecidableEq

/-- Result of the flush: mutated storage, remaining live entities, and the
ordered event log. -/
structure MaintainOut where
  models : Store ModelC
  alive : List Entity
  events : List MaintainEvent
  deriving DecidableEq

/-- The `ECS::maintain` loop body for one marked entity: if it holds a
Model whose `model_id` is Some, call `remove_model` and clear the handle;
then delete the entity. -/
def maintainEntityStep (out : MaintainOut) (e : Entity) : MaintainOut :=
  let out1 :=
    match lookupA out.models e with
    | some m =>
      match m.model_id with
      | some mid =>
        { out with
          models := setA out.models e { m with model_id := Option.none }
          events := out.events ++ [MaintainEvent.remove_model m.mesh_id mid e] }
      | Option.none => out
    | Option.none => out
  { out1 with
    alive := out1.alive.filter (fun x => x ≠ e)
    events := out1.events ++ [MaintainEvent.delete e] }

/-- `ECS::maintain`: flush every marked entity in order, then clear the
queue (the cleared queue is implicit in the output type). -/
def ECS_maintain (st : MaintainState) : MaintainOut :=
  st.to_be_removed.foldl maintainEntityStep ⟨st.models, st.alive, []⟩

/-- `EcsUtils::mark_for_removal`: push the entity unless already marked. -/
def EcsUtils_mark_for_removal (to_be_removed : List Entity) (entity : Entity) :
    List Entity :=
  if entity ∈ to_be_removed then to_be_removed else to_be_removed ++ [entity]

/-! ## Model-Sync (src/src/entity/mod.rs, `ModelUpdateSystem`) -/

/-- Component change events drained from a flagged-storage channel. -/
inductive ComponentEvent
  | inserted (id : Entity)
  | modified (id : Entity)
  | removed (id : Entity)
  deriving DecidableEq

/-- Calls issued to the external `MeshManager`.  The world matrix argument
is elided (it is a function of the Transform alone and no claim depends on
it); the entity the call was issued for is recorded for specification
bookkeeping. -/
inductive RenderCall
  | new_model (mesh_id : Nat) (entity : Entity) (model : Nat)
  | update_model (mesh_id : Nat) (model : Nat) (entity : Entity)
  deriving DecidableEq

/-- The external render manager, modelled as a fresh-handle counter plus
the ordered log of calls issued to it. -/
structure MeshManager where
  next_model : Nat
  calls : List RenderCall
  deriving DecidableEq

/-- The ids added to the `inserted` BitSet when draining the Model event
channel: insertion events only, coalesced per entity. -/
def insertedIds (evs : List ComponentEvent) : List Entity :=
  (evs.filterMap fun ev => match ev with
    | ComponentEvent.inserted id => some id
    | _ => Option.none).dedup

/-- The ids added to the `modified` BitSet when draining the Transform
event channel: modification events only, coalesced per entity. -/
def modifiedIds (evs : List ComponentEvent) : List Entity :=
  (evs.filterMap fun ev => match ev with
    | ComponentEvent.modified id => some id
    | _ => Option.none).dedup

/-- State threaded through a Model-Sync pass. -/
structure ModelSyncOut where
  mm : MeshManager
  models : Store ModelC
  deriving DecidableEq

/-- Body of the first `ModelUpdateSystem::run` join: for an entity in the
`inserted` set that still holds both a Model and a Transform, call
`new_model` and store the returned handle on the Model. -/
def modelCreateStep (transforms : Store Transform) (out : ModelSyncOut) (e : Entity) :
    ModelSyncOut :=
  match lookupA out.models e, lookupA transforms e with
  | some m, some _ =>
    let handle := out.mm.next_model
    { mm := ⟨handle + 1, out.mm.calls ++ [RenderCall.new_model m.mesh_id e handle]⟩
      models := setA out.models e { m with model_id := some handle } }
  | _, _ => out

/-- Body of the second `ModelUpdateSystem::run` join: for an entity in the
`modified` set that holds both a Model and a Transform, and whose Model
already holds a handle, call `update_model`. -/
def modelUpdateStep (transforms : Store Transform) (out : ModelSyncOut) (e : Entity) :
    ModelSyncOut :=
  match lookupA out.models e, lookupA transforms e with
  | some m, some _ =>
    match m.model_id with
    | some mid =>
      { out with mm := { out.mm with
          calls := out.mm.calls ++ [RenderCall.update_model m.mesh_id mid e] } }
    | Option.none => out
  | _, _ => out

/-- `ModelUpdateSystem::run`: drain both event channels, run the insertion
join, then the modification join. -/
def ModelUpdateSystem_run (mm : MeshManager) (models : Store ModelC)
    (transforms : Store Transform) (modelEvents transformEvents : List ComponentEvent) :
    ModelSyncOut :=
  let afterCreate := (insertedIds modelEvents).foldl (modelCreateStep transforms) ⟨mm, models⟩
  (modifiedIds transformEvents).foldl (modelUpdateStep transforms) afterCreate

/-- The `new_model` calls issued for entity `e`, in order. -/
def createsFor (calls : List RenderCall) (e : Entity) : List RenderCall :=
  calls.filter fun c => match c with
    | RenderCall.new_model _ e' _ => e' == e
    | _ => false

/-- An `update_model` call is justified by a model storage when the named
entity holds that mesh and that handle there; other calls are unconstrained. -/
def updateJustified (models : Store ModelC) (c : RenderCall) : Prop :=
  match c with
  | RenderCall.update_model mesh mid e =>
    ∃ m, lookupA models e = some m ∧ m.model_id = some mid ∧ m.mesh_id = mesh
  | _ => True

/-- Calls of the insertion join are always `new_model` calls. -/
def isNewModelCall : RenderCall → Prop
  | RenderCall.new_model _ _ _ => True
  | _ => False

/-! ## Asteroid field (src/src/entity/gameplay.rs, `AsteroidFieldSystem`) -/

/-- The `max_level` cap of `AsteroidFieldSystem::run`. -/
def max_level : Nat := 30

/-- The `AsteroidField` component: roster, countdown, level, x-range. -/
structure AsteroidField where
  asteroids : List Entity
  tick : Nat
  level : Nat
  x_range : ℚ
  deriving DecidableEq

/-- The random draws consumed by one spawning tick of
`AsteroidFieldSystem::run`, passed in explicitly: the attack-branch roll
from `gen_range(0..(max_level - level + 5))`, the attack lane and height,
the passive lane jitter, band choice and height, and the initial facing.
The item draw only selects a mesh and is elided. -/
structure FieldRng where
  attack_roll : Nat
  attack_y : ℚ
  attack_z : ℚ
  passive_y : ℚ
  passive_band : Bool
  passive_z : ℚ
  rot : ℚ

/-- Output of one `AsteroidFieldSystem::run` tick for one field. -/
structure FieldRunOut where
  field : AsteroidField
  to_be_removed : List Entity
  spawned : List (Entity × Transform)
  attack : Bool
  deriving DecidableEq

/-- The roster scan of `AsteroidFieldSystem::run` that marks for removal
every roster asteroid whose |x| exceeds the x-range.  The source unwraps
`transforms.get(asteroid)`, so an absent Transform is fatal
(`Option.none`). -/
def rosterMarks (transforms : Store Transform) (x_range : ℚ) :
    List Entity → List Entity → Option (List Entity)
  | [], q => some q
  | a :: rest, q =>
    match lookupA transforms a with
    | Option.none => Option.none
    | some t =>
      rosterMarks transforms x_range rest
        (if |t.position.x| > x_range then EcsUtils_mark_for_removal q a else q)

/-- `AsteroidFieldSystem::run` for one field: prune dead roster entries,
mark drifted asteroids, then either count the tick down or level up
(capped), reset the countdown to `200 - level*6`, and spawn one asteroid
on the attack trajectory when the roll is below 4, otherwise on a passive
band.  The spawned components built from constants of the missing
objects.rs (velocity, collider, health) are elided; the new entity and its
Transform are recorded. -/
def AsteroidFieldSystem_run (transforms : Store Transform) (alive : List Entity)
    (rng : FieldRng) (fresh : Entity) (to_be_removed : List Entity)
    (field : AsteroidField) : Option FieldRunOut :=
  let roster1 := field.asteroids.filter (fun a => alive.contains a)
  match rosterMarks transforms field.x_range roster1 to_be_removed with
  | Option.none => Option.none
  | some marks =>
    if field.tick > 0 then
      some ⟨{ field with asteroids := roster1, tick := field.tick - 1 }, marks, [], false⟩
    else
      let level2 := if field.level < max_level then field.level + 1 else field.level
      let tick2 := 200 - level2 * 6
      let isAttack := rng.attack_roll < 4
      let transform0 :=
        if isAttack then
          Transform.from_position (-field.x_range) rng.attack_y rng.attack_z
        else
          Transform.from_position (-field.x_range)
            (rng.passive_y + if rng.passive_band then 14 else -10) rng.passive_z
      let transform2 := transform0.set_rotation_z rng.rot
      some ⟨{ field with asteroids := roster1 ++ [fresh], tick := tick2, level := level2 },
        marks, [(fresh, transform2)], isAttack⟩

/-- A concrete field at the level cap with an empty roster. -/
def c7Field : AsteroidField := ⟨[], 0, 30, 15⟩

/-- Concrete random draws. -/
def c7Rng : FieldRng := ⟨0, 0, 0, 0, false, 0, 0⟩

/-- The concrete output of one tick at the level cap. -/
def c7Out : FieldRunOut :=
  ⟨⟨[99], 20, 30, 15⟩, [], [(99, (Transform.from_position (-15) 0 0).set_rotation_z 0)], true⟩

/-- The size of the random range `0..(max_level - level + 5)` drawn by the
spawn branch of `AsteroidFieldSystem::run` (the level has already been
incremented at the draw). -/
def rollBound (level : Nat) : Nat := max_level - level + 5

/-- Fraction of the draws of `gen_range(0..rollBound level)` that select
the attack branch (`roll < 4`). -/
def attackFrac (level : Nat) : ℚ :=
  (((Finset.range (rollBound level)).filter (fun r => r < 4)).card : ℚ)
    / (rollBound level : ℚ)

theorem lookupA_setA_self {α : Type} (l : Store α) (e : Entity) (v : α) :
    lookupA (setA l e v) e = some v := by
  induction l with
  | nil => simp [setA, lookupA]
  | cons hd tl ih =>
    obtain ⟨k, w⟩ := hd
    by_cases hk : k = e
    · simp [setA, hk, lookupA]
    · simp [setA, hk, lookupA, ih]

theorem lookupA_setA_ne {α : Type} (l : Store α) (e e' : Entity) (v : α) (h : e' ≠ e) :
    lookupA (setA l e' v) e = lookupA l e := by
  induction l with
  | nil => simp [setA, lookupA, h]
  | cons hd tl ih =>
    obtain ⟨k, w⟩ := hd
    by_cases hk : k = e'
    · subst hk
      simp [setA, lookupA, h]
    · simp [setA, hk, lookupA, ih]

theorem lookupA_removeA {α : Type} (l : Store α) (e e' : Entity) :
    lookupA (removeA l e') e = if e' = e then Option.none else lookupA l e := by
  induction l with
  | nil => simp [removeA, lookupA]
  | cons hd tl ih =>
    obtain ⟨k, w⟩ := hd
    by_cases hk : k = e'
    · subst hk
      by_cases he : k = e
      · subst he
        simp [removeA, ih]
      · simp [removeA, lookupA, he, ih]
    · by_cases he : k = e
      · subst he
        have hne : ¬ e' = k := fun h => hk h.symm
        simp [removeA, hk, lookupA, hne]
      · simp [removeA, hk, lookupA, he, ih]

/-- Membership of a key in a storage, read off from `lookupA`. -/
theorem lookupA_mem_keys {α : Type} (l : Store α) (e : Entity) (v : α)
    (h : lookupA l e = some v) : e ∈ l.map Prod.fst := by
  induction l with
  | nil => simp [lookupA] at h
  | cons hd tl ih =>
    obtain ⟨k, w⟩ := hd
    by_cases hk : k = e
    · simp [hk]
    · simp [lookupA, hk] at h
      simp [ih h]

theorem minerFires_eq_zero (l : List InputManager) :
    ∀ s : Nat, s + l.length ≤ Miner_TOTAL_TIME + 1 → minerFires s l = 0 := by
  induction l with
  | nil => intro s _; rfl
  | cons i rest ih =>
    intro s hs
    have hlen : s + 1 + rest.length ≤ Miner_TOTAL_TIME + 1 := by
      simpa [Nat.add_assoc, Nat.add_comm, Nat.add_left_comm] using hs
    have hsle : ¬ s > Miner_TOTAL_TIME := by omega
    simp only [minerFires, minerStep, hsle, if_false]
    simpa using ih (s + 1) hlen

theorem minerFires_le_one (l : List InputManager) :
    ∀ s : Nat, l.length ≤ Miner_TOTAL_TIME + 1 → minerFires s l ≤ 1 := by
  induction l with
  | nil => intro s _; simp [minerFires]
  | cons i rest ih =>
    intro s hlen
    have hrest : rest.length ≤ Miner_TOTAL_TIME + 1 := by
      simp only [List.length_cons] at hlen; omega
    by_cases hs : s > Miner_TOTAL_TIME
    · by_cases ha : i.action = InputAction.mining
      · cases ht : i.target with
        | none =>
          simp only [minerFires, minerStep, hs, if_true, ha, ht]
          simpa using ih s hrest
        | some tgt =>
          have hzero : minerFires 0 rest = 0 := by
            apply minerFires_eq_zero
            simpa using hrest
          simp [minerFires, minerStep, hs, ha, ht, hzero]
      · simp only [minerFires, minerStep, hs, if_true, ha, if_false]
        simpa using ih s hrest
    · simp only [minerFires, minerStep, hs, if_false]
      simpa using ih (s + 1) hrest

/-- C5: while continuously commanded, a mining turret spawns at most one
missile per `TOTAL_TIME` (120) ticks, and a single miner tick never spawns
a missile when the input has no target or the mining action is not
asserted. -/
theorem miner_rate_limit_and_gating (s s' : Nat) (l : List InputManager) (i : InputManager)
    (hlen : l.length ≤ Miner_TOTAL_TIME)
    (hcmd : ∀ j ∈ l, j.action = InputAction.mining ∧ j.target.isSome)
    (hnot : i.target = Option.none ∨ i.action ≠ InputAction.mining) :
    minerFires s l ≤ 1 ∧ (minerStep i s').2 = Option.none := by
  constructor
  · exact minerFires_le_one l s (by omega)
  · rcases hnot with ht | ha
    · by_cases hs : s' > Miner_TOTAL_TIME
      · by_cases hai : i.action = InputAction.mining
        · simp [minerStep, hs, hai, ht]
        · simp [minerStep, hs, hai]
      · simp [minerStep, hs]
    · by_cases hs : s' > Miner_TOTAL_TIME
      · simp [minerStep, hs, ha]
      · simp [minerStep, hs]

/-- Witness for C5 at a concrete commanded input stream of length 120. -/
theorem miner_rate_limit_and_gating_witness :
    minerFires 0 (List.replicate 120 ⟨InputAction.mining, some 1⟩) ≤ 1 ∧
      (minerStep ⟨InputAction.laser, Option.none⟩ 200).2 = Option.none :=
  miner_rate_limit_and_gating 0 200 (List.replicate 120 ⟨InputAction.mining, some 1⟩)
    ⟨InputAction.laser, Option.none⟩ (by simp [Miner_TOTAL_TIME])
    (by intro j hj; rcases List.eq_of_mem_replicate hj with rfl; exact ⟨rfl, rfl⟩)
    (Or.inl rfl)

/-- C3: for a cooler whose owning ship exists with non-negative heat, one
cooler tick sets the ship heat to `max 0 (heat - cool_rate)`, which is
never negative. -/
theorem cooler_clamps_heat (g : Store Entity) (ships : Store ℚ) (e s : Entity) (h : ℚ)
    (hg : lookupA g e = some s) (hs : lookupA ships s = some h) (h0 : 0 ≤ h) :
    lookupA (coolerEntityStep g ships e) s = some (max 0 (h - cool_rate)) ∧
      0 ≤ max 0 (h - cool_rate) := by
  refine ⟨?_, le_max_left _ _⟩
  by_cases hpos : h > 0
  · by_cases hlt : h < cool_rate
    · have hmax : max 0 (h - cool_rate) = 0 := max_eq_left (by linarith)
      simp only [coolerEntityStep, hg, hs, hpos, if_true, hlt, hmax]
      exact lookupA_setA_self _ _ _
    · have hmax : max 0 (h - cool_rate) = h - cool_rate :=
        max_eq_right (by linarith [not_lt.mp hlt])
      simp only [coolerEntityStep, hg, hs, hpos, if_true, hlt, if_false, hmax]
      exact lookupA_setA_self _ _ _
  · have hz : h = 0 := le_antisymm (not_lt.mp hpos) h0
    subst hz
    have hmax : max 0 ((0 : ℚ) - cool_rate) = 0 := max_eq_left (by norm_num [cool_rate])
    simp [coolerEntityStep, hg, hs, hpos, hmax]
    norm_num [cool_rate]

/-- Witness for C3: a cooler on ship 10 with heat 1/2 cools it to 37/100. -/
theorem cooler_clamps_heat_witness :
    lookupA (coolerEntityStep [(0, 10)] [(10, 1/2)] 0) 10 = some (max 0 (1/2 - cool_rate)) ∧
      0 ≤ max 0 ((1 : ℚ)/2 - cool_rate) :=
  cooler_clamps_heat [(0, 10)] [(10, 1/2)] 0 10 (1/2) rfl rfl (by norm_num)

theorem minerEntityStep_preserves (pi : ℚ) (input : InputManager) (out : MinerRunOut)
    (e e' : Entity) (h : e' ≠ e) :
    lookupA (minerEntityStep pi input out e').transforms e = lookupA out.transforms e ∧
      lookupA (minerEntityStep pi input out e').miners e = lookupA out.miners e ∧
      (e ∈ out.modified → e ∈ (minerEntityStep pi input out e').modified) := by
  unfold minerEntityStep
  cases ht : lookupA out.transforms e' with
  | none => simp
  | some t =>
    cases hm : lookupA out.miners e' with
    | none => simp
    | some s =>
      refine ⟨?_, ?_, ?_⟩
      · simpa using lookupA_setA_ne out.transforms e e' _ h
      · simpa using lookupA_setA_ne out.miners e e' _ h
      · intro hmem
        simp [hmem]

theorem minerFold_untouched (pi : ℚ) (input : InputManager) (l : List Entity) (e : Entity)
    (hnot : e ∉ l) :
    ∀ out : MinerRunOut,
      lookupA (l.foldl (minerEntityStep pi input) out).transforms e = lookupA out.transforms e ∧
      lookupA (l.foldl (minerEntityStep pi input) out).miners e = lookupA out.miners e ∧
      (e ∈ out.modified → e ∈ (l.foldl (minerEntityStep pi input) out).modified) := by
  induction l with
  | nil => intro out; exact ⟨rfl, rfl, fun h => h⟩
  | cons hd tl ih =>
    intro out
    have hne : hd ≠ e := fun hcon => hnot (hcon ▸ List.mem_cons_self hd tl)
    have htl : e ∉ tl := fun hcon => hnot (List.mem_cons_of_mem hd hcon)
    obtain ⟨h1, h2, h3⟩ := minerEntityStep_preserves pi input out e hd hne
    obtain ⟨g1, g2, g3⟩ := ih htl (minerEntityStep pi input out hd)
    exact ⟨by simp [List.foldl_cons, g1, h1], by simp [List.foldl_cons, g2, h2],
      fun hm => by simpa [List.foldl_cons] using g3 (h3 hm)⟩

/-- C10: every tick, for every entity holding both a Miner and a Transform,
`MinerSystem::run` rewrites the transform rotation-z to `PI` and leaves the
position and scale unchanged, and the entity is flagged modified. -/
theorem miner_writes_rotation_every_tick (pi : ℚ) (input : InputManager)
    (transforms : Store Transform) (miners : Store Nat) (e : Entity) (t : Transform) (s : Nat)
    (ht : lookupA transforms e = some t) (hm : lookupA miners e = some s)
    (hkeys : (miners.map Prod.fst).Nodup) :
    lookupA (MinerSystem_run pi input transforms miners).transforms e
        = some { t with rotationZ := pi } ∧
      e ∈ (MinerSystem_run pi input transforms miners).modified := by
  have hmem : e ∈ miners.map Prod.fst := lookupA_mem_keys miners e s hm
  obtain ⟨l1, l2, hsplit⟩ := List.append_of_mem hmem
  rw [hsplit] at hkeys
  have he1 : e ∉ l1 := by
    intro hcon
    exact (List.disjoint_of_nodup_append hkeys) hcon (List.mem_cons_self e l2)
  have he2 : e ∉ l2 := by
    have := hkeys.of_append_right
    exact fun hcon => (List.nodup_cons.mp this).1 hcon
  unfold MinerSystem_run
  rw [hsplit, List.foldl_append, List.foldl_cons]
  set out0 : MinerRunOut := ⟨transforms, miners, [], []⟩ with hout0
  obtain ⟨p1, p2, _⟩ := minerFold_untouched pi input l1 e he1 out0
  set mid := l1.foldl (minerEntityStep pi input) out0 with hmid
  have hmt : lookupA mid.transforms e = some t := by rw [p1]; exact ht
  have hmm : lookupA mid.miners e = some s := by rw [p2]; exact hm
  have hstep :
      lookupA (minerEntityStep pi input mid e).transforms e = some { t with rotationZ := pi } ∧
        e ∈ (minerEntityStep pi input mid e).modified := by
    unfold minerEntityStep
    rw [hmt, hmm]
    constructor
    · simpa [Transform.set_rotation_z] using lookupA_setA_self mid.transforms e _
    · simp
  obtain ⟨q1, q2, q3⟩ := minerFold_untouched pi input l2 e he2 (minerEntityStep pi input mid e)
  exact ⟨by rw [q1]; exact hstep.1, q3 hstep.2⟩

/-- Witness for C10: one miner at entity 0 with a concrete transform. -/
theorem miner_writes_rotation_every_tick_witness :
    lookupA (MinerSystem_run 3 ⟨InputAction.noAction, Option.none⟩
        [(0, Transform.from_position 1 2 3)] [(0, 5)]).transforms 0
        = some { Transform.from_position 1 2 3 with rotationZ := 3 } ∧
      0 ∈ (MinerSystem_run 3 ⟨InputAction.noAction, Option.none⟩
        [(0, Transform.from_position 1 2 3)] [(0, 5)]).modified :=
  miner_writes_rotation_every_tick 3 ⟨InputAction.noAction, Option.none⟩
    [(0, Transform.from_position 1 2 3)] [(0, 5)] 0 (Transform.from_position 1 2 3) 5
    rfl rfl (by simp)

theorem lookupA_foldl_removeA_none {α : Type} (l : List Entity) :
    ∀ (ls : Store α) (e : Entity), lookupA ls e = Option.none →
      lookupA (l.foldl removeA ls) e = Option.none := by
  induction l with
  | nil => intro ls e h; exact h
  | cons hd tl ih =>
    intro ls e h
    apply ih
    rw [lookupA_removeA]
    by_cases hh : hd = e <;> simp [hh, h]

theorem lookupA_foldl_removeA_mem {α : Type} (l : List Entity) :
    ∀ (ls : Store α) (e : Entity), e ∈ l → lookupA (l.foldl removeA ls) e = Option.none := by
  induction l with
  | nil => intro ls e h; cases h
  | cons hd tl ih =>
    intro ls e h
    by_cases hh : e ∈ tl
    · exact ih _ e hh
    · have heq : hd = e := by
        rcases List.mem_cons.mp h with h1 | h1
        · exact h1.symm
        · exact absurd h1 hh
      subst heq
      rw [List.foldl_cons]
      apply lookupA_foldl_removeA_none
      rw [lookupA_removeA]
      simp

theorem laserLoop_target_none (trig : TrigModel) (rc : Vec3 → Vec3 → Option Entity)
    (input : InputManager) (h2 : input.target = Option.none) (l : List Entity) :
    ∀ st : LaserWorld, laserLoop trig rc input l st
        = some { st with lines := l.foldl removeA st.lines } := by
  induction l with
  | nil => intro st; simp [laserLoop]
  | cons hd tl ih =>
    intro st
    simp [laserLoop, laserEntityStep, h2, ih]

/-- C4 counterexample: with the laser action not asserted,
`LaserSystem::run` returns early unchanged, so the beam line of laser 0 is
not removed that tick, refuting the claim as stated. -/
theorem laser_line_kept_when_action_unasserted :
    LaserSystem_run cexTrig cexRaycast ⟨InputAction.mining, some 1⟩ [0] cexWorldC4
        = some cexWorldC4 ∧
      lookupA cexWorldC4.lines 0 = some cexLine := by
  constructor
  · rfl
  · rfl

/-- C4 amended: when the laser action is asserted but the target check
fails (no target; the raycast gate of the source never fails), every laser
entity has its beam line removed that tick; when the action is not
asserted, the system returns early and leaves all Line components
untouched. -/
theorem laser_line_removed_amended (trig : TrigModel) (rc : Vec3 → Vec3 → Option Entity)
    (input input' : InputManager) (lasers : List Entity) (w : LaserWorld) (e : Entity)
    (h1 : input.action = InputAction.laser) (h2 : input.target = Option.none)
    (he : e ∈ lasers) (h3 : input'.action ≠ InputAction.laser) :
    (∃ w2, LaserSystem_run trig rc input lasers w = some w2 ∧
        lookupA w2.lines e = Option.none) ∧
      LaserSystem_run trig rc input' lasers w = some w := by
  refine ⟨⟨{ w with lines := lasers.foldl removeA w.lines }, ?_, ?_⟩, ?_⟩
  · simp [LaserSystem_run, h1, laserLoop_target_none trig rc input h2]
  · exact lookupA_foldl_removeA_mem lasers w.lines e he
  · simp [LaserSystem_run, h3]

/-- Witness for the amended C4 at a concrete world. -/
theorem laser_line_removed_amended_witness :
    (∃ w2, LaserSystem_run cexTrig cexRaycast ⟨InputAction.laser, Option.none⟩ [0] cexWorldC4
        = some w2 ∧ lookupA w2.lines 0 = Option.none) ∧
      LaserSystem_run cexTrig cexRaycast ⟨InputAction.mining, some 1⟩ [0] cexWorldC4
        = some cexWorldC4 :=
  laser_line_removed_amended cexTrig cexRaycast ⟨InputAction.laser, Option.none⟩
    ⟨InputAction.mining, some 1⟩ [0] cexWorldC4 0 rfl rfl (by simp) (by simp)

/-- C6: in the scenario with one laser at ship heat 0.0, asserted laser
action and a target with health 10, one `LaserSystem::run` tick raises the
ship heat to exactly 0.3 and lowers the target health to 9, for any values
of the trigonometric primitives and of the raycast. -/
theorem laser_scenario_heat_and_damage (trig : TrigModel)
    (rc : Vec3 → Vec3 → Option Entity) :
    (LaserSystem_run trig rc ⟨InputAction.laser, some 1⟩ [0] c6World).map
        (fun w2 => (lookupA w2.ships 10, lookupA w2.healths 1))
      = some (some (3/10), some 9) := by
  simp [LaserSystem_run, laserLoop, laserEntityStep, c6World, lookupA, setA, Health.damage]

/-- C9 counterexample: with an asserted laser action and a stale target
handle whose Transform is absent, `LaserSystem::run` unwraps the absent
component and is fatal (modelled as `Option.none`), refuting the claim
that no read site turns a stale handle into a fatal condition. -/
theorem laser_panics_on_stale_target :
    LaserSystem_run cexTrig cexRaycast ⟨InputAction.laser, some 1⟩ [0] c9World
      = Option.none := by
  rfl

/-- C9 amended: storage reads on absent handles yield None, and sites such
as the cooler ship lookup branch on absence and proceed, but the
`LaserSystem::run` read of the input target Transform unwraps the absent
value: with any laser entity present the tick is fatal. -/
theorem stale_handle_reads (trig : TrigModel) (rc : Vec3 → Vec3 → Option Entity)
    (input : InputManager) (t e : Entity) (rest : List Entity) (w : LaserWorld)
    (g : Store Entity) (ships : Store ℚ) (ce : Entity)
    (h1 : input.action = InputAction.laser) (h2 : input.target = some t)
    (h3 : lookupA w.transforms t = Option.none) (h4 : lookupA g ce = Option.none) :
    LaserSystem_run trig rc input (e :: rest) w = Option.none ∧
      coolerEntityStep g ships ce = ships := by
  constructor
  · simp [LaserSystem_run, h1, laserLoop, laserEntityStep, h2, h3]
  · simp [coolerEntityStep, h4]

/-- Witness for the amended C9 at a concrete world. -/
theorem stale_handle_reads_witness :
    LaserSystem_run cexTrig cexRaycast ⟨InputAction.laser, some 1⟩ [0] c9World
        = Option.none ∧
      coolerEntityStep [] [(10, 1)] 0 = [(10, 1)] :=
  stale_handle_reads cexTrig cexRaycast ⟨InputAction.laser, some 1⟩ 1 0 [] c9World
    [] [(10, 1)] 0 rfl rfl rfl rfl

theorem maintainEntityStep_alive (out : MaintainOut) (e : Entity) :
    (maintainEntityStep out e).alive = out.alive.filter (fun x => x ≠ e) := by
  unfold maintainEntityStep
  cases hm : lookupA out.models e with
  | none => simp
  | some m =>
    cases hmid : m.model_id with
    | none => simp [hmid]
    | some mid => simp [hmid]

theorem maintainFold_alive_not_mem (l : List Entity) (e : Entity) :
    ∀ out : MaintainOut, e ∉ out.alive → e ∉ (l.foldl maintainEntityStep out).alive := by
  induction l with
  | nil => intro out h; exact h
  | cons hd tl ih =>
    intro out h
    apply ih
    rw [maintainEntityStep_alive]
    intro hcon
    exact h (List.mem_of_mem_filter hcon)

theorem maintainFold_kills_alive (l : List Entity) (e : Entity) (hmem : e ∈ l) :
    ∀ out : MaintainOut, e ∉ (l.foldl maintainEntityStep out).alive := by
  induction l with
  | nil => cases hmem
  | cons hd tl ih =>
    intro out
    by_cases hh : e ∈ tl
    · exact ih hh (maintainEntityStep out hd)
    · have heq : hd = e := by
        rcases List.mem_cons.mp hmem with h1 | h1
        · exact h1.symm
        · exact absurd h1 hh
      subst heq
      rw [List.foldl_cons]
      apply maintainFold_alive_not_mem
      rw [maintainEntityStep_alive]
      simp

theorem maintainEntityStep_models_ne (out : MaintainOut) (e e' : Entity) (h : e' ≠ e) :
    lookupA (maintainEntityStep out e').models e = lookupA out.models e := by
  unfold maintainEntityStep
  cases hm : lookupA out.models e' with
  | none => simp
  | some m =>
    cases hmid : m.model_id with
    | none => simp [hmid]
    | some mid => simpa [hmid] using lookupA_setA_ne out.models e e' _ h

theorem maintainFold_models_cleared (l : List Entity) (e : Entity) (m0 : ModelC)
    (hnone : m0.model_id = Option.none) :
    ∀ out : MaintainOut, lookupA out.models e = some m0 →
      lookupA (l.foldl maintainEntityStep out).models e = some m0 := by
  induction l with
  | nil => intro out h; exact h
  | cons hd tl ih =>
    intro out h
    apply ih
    by_cases hh : hd = e
    · subst hh
      simp [maintainEntityStep, h, hnone]
    · rw [maintainEntityStep_models_ne out e hd hh]
      exact h

theorem maintainEntityStep_events (out : MaintainOut) (e : Entity) :
    ∃ pre : List MaintainEvent, (maintainEntityStep out e).events = out.events ++ pre := by
  unfold maintainEntityStep
  cases hm : lookupA out.models e with
  | none => exact ⟨[MaintainEvent.delete e], by simp⟩
  | some m =>
    cases hmid : m.model_id with
    | none => exact ⟨[MaintainEvent.delete e], by simp [hmid]⟩
    | some mid =>
      exact ⟨[MaintainEvent.remove_model m.mesh_id mid e, MaintainEvent.delete e],
        by simp [hmid]⟩

theorem maintainFold_events_mono (l : List Entity) :
    ∀ out : MaintainOut, ∃ suffix : List MaintainEvent,
      (l.foldl maintainEntityStep out).events = out.events ++ suffix := by
  induction l with
  | nil => intro out; exact ⟨[], by simp⟩
  | cons hd tl ih =>
    intro out
    obtain ⟨p, hp⟩ := maintainEntityStep_events out hd
    obtain ⟨s1, hs1⟩ := ih (maintainEntityStep out hd)
    exact ⟨p ++ s1, by rw [List.foldl_cons, hs1, hp, List.append_assoc]⟩

theorem maintainFold_release_before_delete (l : List Entity) (e : Entity) (m : ModelC)
    (mid : Nat) (hmid : m.model_id = some mid) :
    ∀ out : MaintainOut, e ∈ l → lookupA out.models e = some m →
      ∃ l1 l3, (l.foldl maintainEntityStep out).events
        = l1 ++ MaintainEvent.remove_model m.mesh_id mid e ::
            MaintainEvent.delete e :: l3 := by
  induction l with
  | nil => intro out h; cases h
  | cons hd tl ih =>
    intro out hmem hm
    by_cases hh : hd = e
    · subst hh
      have hstep : (maintainEntityStep out hd).events
          = out.events ++ [MaintainEvent.remove_model m.mesh_id mid hd,
              MaintainEvent.delete hd] := by
        simp [maintainEntityStep, hm, hmid]
      obtain ⟨suffix, hsuf⟩ := maintainFold_events_mono tl (maintainEntityStep out hd)
      refine ⟨out.events, suffix, ?_⟩
      rw [List.foldl_cons, hsuf, hstep]
      simp
    · have hmem' : e ∈ tl := by
        rcases List.mem_cons.mp hmem with h1 | h1
        · exact absurd h1.symm hh
        · exact h1
      have hm' : lookupA (maintainEntityStep out hd).models e = some m := by
        rw [maintainEntityStep_models_ne out e hd hh]
        exact hm
      rw [List.foldl_cons]
      exact ih (maintainEntityStep out hd) hmem' hm'

theorem maintainFold_clears (l : List Entity) (e : Entity) (m : ModelC) :
    ∀ out : MaintainOut, e ∈ l → lookupA out.models e = some m →
      lookupA (l.foldl maintainEntityStep out).models e
        = some { m with model_id := Option.none } := by
  induction l with
  | nil => intro out h; cases h
  | cons hd tl ih =>
    intro out hmem hm
    by_cases hh : hd = e
    · subst hh
      rw [List.foldl_cons]
      apply maintainFold_models_cleared tl hd { m with model_id := Option.none } rfl
      cases hmid : m.model_id with
      | none =>
        have hmeq : ({ m with model_id := Option.none } : ModelC) = m := by
          cases m
          simp_all
        rw [hmeq]
        simp [maintainEntityStep, hm, hmid]
      | some mid =>
        simp [maintainEntityStep, hm, hmid, lookupA_setA_self]
    · have hmem' : e ∈ tl := by
        rcases List.mem_cons.mp hmem with h1 | h1
        · exact absurd h1.symm hh
        · exact h1
      rw [List.foldl_cons]
      apply ih _ hmem'
      rw [maintainEntityStep_models_ne out e hd hh]
      exact hm

/-- C1: for every entity marked for removal that holds a Model with a live
render handle, the end-of-tick flush issues the `remove_model` call
strictly before deleting the entity, clears the handle to None, and the
entity is no longer alive afterwards; marking coalesces duplicates, so the
removal queue stays duplicate-free. -/
theorem maintain_releases_before_delete (st : MaintainState) (e : Entity) (m : ModelC)
    (mid : Nat) (hmem : e ∈ st.to_be_removed)
    (hm : lookupA st.models e = some m) (hmid : m.model_id = some mid) :
    e ∉ (ECS_maintain st).alive ∧
      lookupA (ECS_maintain st).models e = some { m with model_id := Option.none } ∧
      (∃ l1 l3, (ECS_maintain st).events
        = l1 ++ MaintainEvent.remove_model m.mesh_id mid e ::
            MaintainEvent.delete e :: l3) ∧
      ∀ (q : List Entity) (x : Entity), q.Nodup → (EcsUtils_mark_for_removal q x).Nodup := by
  refine ⟨?_, ?_, ?_, ?_⟩
  · exact maintainFold_kills_alive st.to_be_removed e hmem _
  · exact maintainFold_clears st.to_be_removed e m _ hmem hm
  · exact maintainFold_release_before_delete st.to_be_removed e m mid hmid _ hmem hm
  · intro q x hq
    unfold EcsUtils_mark_for_removal
    by_cases hx : x ∈ q
    · simp [hx, hq]
    · simp [hx, List.nodup_append, hq]

/-- Witness for C1: one marked entity holding a handle. -/
theorem maintain_releases_before_delete_witness :
    (5 : Entity) ∉ (ECS_maintain ⟨[5], [(5, ⟨7, some 3⟩)], [5]⟩).alive ∧
      lookupA (ECS_maintain ⟨[5], [(5, ⟨7, some 3⟩)], [5]⟩).models 5
        = some { mesh_id := 7, model_id := Option.none } ∧
      (∃ l1 l3, (ECS_maintain ⟨[5], [(5, ⟨7, some 3⟩)], [5]⟩).events
        = l1 ++ MaintainEvent.remove_model 7 3 5 :: MaintainEvent.delete 5 :: l3) ∧
      ∀ (q : List Entity) (x : Entity), q.Nodup → (EcsUtils_mark_for_removal q x).Nodup :=
  maintain_releases_before_delete ⟨[5], [(5, ⟨7, some 3⟩)], [5]⟩ 5 ⟨7, some 3⟩ 3
    (by simp) rfl rfl

theorem modelCreateStep_untouched (transforms : Store Transform) (out : ModelSyncOut)
    (e e' : Entity) (h : e' ≠ e) :
    createsFor (modelCreateStep transforms out e').mm.calls e = createsFor out.mm.calls e ∧
      lookupA (modelCreateStep transforms out e').models e = lookupA out.models e := by
  unfold modelCreateStep
  cases hm : lookupA out.models e' with
  | none =>
    cases ht : lookupA transforms e' with
    | none => exact ⟨rfl, rfl⟩
    | some t => exact ⟨rfl, rfl⟩
  | some m =>
    cases ht : lookupA transforms e' with
    | none => exact ⟨rfl, rfl⟩
    | some t =>
      constructor
      · simp [createsFor, List.filter_append, h]
      · simpa using lookupA_setA_ne out.models e e' _ h

theorem modelCreateFold_untouched (transforms : Store Transform) (l : List Entity)
    (e : Entity) (hnot : e ∉ l) :
    ∀ out : ModelSyncOut,
      createsFor ((l.foldl (modelCreateStep transforms) out)).mm.calls e
          = createsFor out.mm.calls e ∧
        lookupA (l.foldl (modelCreateStep transforms) out).models e
          = lookupA out.models e := by
  induction l with
  | nil => intro out; exact ⟨rfl, rfl⟩
  | cons hd tl ih =>
    intro out
    have hne : hd ≠ e := fun hcon => hnot (hcon ▸ List.mem_cons_self hd tl)
    have htl : e ∉ tl := fun hcon => hnot (List.mem_cons_of_mem hd hcon)
    obtain ⟨h1, h2⟩ := modelCreateStep_untouched transforms out e hd hne
    obtain ⟨g1, g2⟩ := ih htl (modelCreateStep transforms out hd)
    exact ⟨by rw [List.foldl_cons, g1, h1], by rw [List.foldl_cons, g2, h2]⟩

theorem modelUpdateStep_frame (transforms : Store Transform) (out : ModelSyncOut)
    (e' e0 : Entity) :
    (modelUpdateStep transforms out e').models = out.models ∧
      createsFor (modelUpdateStep transforms out e').mm.calls e0
        = createsFor out.mm.calls e0 := by
  unfold modelUpdateStep
  cases hm : lookupA out.models e' with
  | none =>
    cases ht : lookupA transforms e' with
    | none => exact ⟨rfl, rfl⟩
    | some t => exact ⟨rfl, rfl⟩
  | some m =>
    cases ht : lookupA transforms e' with
    | none => exact ⟨rfl, rfl⟩
    | some t =>
      cases hmid : m.model_id with
      | none => exact ⟨by simp [hmid], by simp [hmid]⟩
      | some mid =>
        exact ⟨by simp [hmid], by simp [hmid, createsFor, List.filter_append]⟩

theorem modelUpdateFold_frame (transforms : Store Transform) (l : List Entity) (e0 : Entity) :
    ∀ out : ModelSyncOut,
      (l.foldl (modelUpdateStep transforms) out).models = out.models ∧
        createsFor (l.foldl (modelUpdateStep transforms) out).mm.calls e0
          = createsFor out.mm.calls e0 := by
  induction l with
  | nil => intro out; exact ⟨rfl, rfl⟩
  | cons hd tl ih =>
    intro out
    obtain ⟨h1, h2⟩ := modelUpdateStep_frame transforms out hd e0
    obtain ⟨g1, g2⟩ := ih (modelUpdateStep transforms out hd)
    exact ⟨by rw [List.foldl_cons, g1, h1], by rw [List.foldl_cons, g2, h2]⟩

theorem modelUpdateStep_justified (transforms : Store Transform) (out : ModelSyncOut)
    (e' : Entity) (hall : ∀ c ∈ out.mm.calls, updateJustified out.models c) :
    ∀ c ∈ (modelUpdateStep transforms out e').mm.calls,
      updateJustified (modelUpdateStep transforms out e').models c := by
  have hmodels := (modelUpdateStep_frame transforms out e' 0).1
  rw [hmodels]
  unfold modelUpdateStep
  cases hm : lookupA out.models e' with
  | none =>
    cases ht : lookupA transforms e' with
    | none => exact hall
    | some t => exact hall
  | some m =>
    cases ht : lookupA transforms e' with
    | none => exact hall
    | some t =>
      cases hmid : m.model_id with
      | none => simpa [hmid] using hall
      | some mid =>
        intro c hc
        simp only [hmid] at hc
        simp only [List.mem_append, List.mem_singleton] at hc
        rcases hc with hc | hc
        · exact hall c hc
        · subst hc
          exact ⟨m, hm, hmid, rfl⟩

theorem modelUpdateFold_justified (transforms : Store Transform) (l : List Entity) :
    ∀ out : ModelSyncOut,
      (∀ c ∈ out.mm.calls, updateJustified out.models c) →
      ∀ c ∈ (l.foldl (modelUpdateStep transforms) out).mm.calls,
        updateJustified (l.foldl (modelUpdateStep transforms) out).models c := by
  induction l with
  | nil => intro out hall; exact hall
  | cons hd tl ih =>
    intro out hall
    rw [List.foldl_cons]
    exact ih (modelUpdateStep transforms out hd)
      (modelUpdateStep_justified transforms out hd hall)

theorem modelCreateFold_shapes (transforms : Store Transform) (l : List Entity) :
    ∀ out : ModelSyncOut, (∀ c ∈ out.mm.calls, isNewModelCall c) →
      ∀ c ∈ (l.foldl (modelCreateStep transforms) out).mm.calls, isNewModelCall c := by
  induction l with
  | nil => intro out hall; exact hall
  | cons hd tl ih =>
    intro out hall
    rw [List.foldl_cons]
    apply ih
    unfold modelCreateStep
    cases hm : lookupA out.models hd with
    | none =>
      cases ht : lookupA transforms hd with
      | none => exact hall
      | some t => exact hall
    | some m =>
      cases ht : lookupA transforms hd with
      | none => exact hall
      | some t =>
        intro c hc
        simp only [List.mem_append, List.mem_singleton] at hc
        rcases hc with hc | hc
        · exact hall c hc
        · subst hc
          trivial

/-- C2 counterexample: a Model insertion event for entity 0 is drained
(`insertedIds` contains 0), entity 0 holds a Model, yet no `new_model`
call is issued because the entity has no Transform — the joins of
`ModelUpdateSystem::run` require both storages, refuting the claim that
every drained (entity, insertion-event) yields exactly one creation. -/
theorem modelsync_missing_transform_counterexample :
    insertedIds [ComponentEvent.inserted 0] = [0] ∧
      lookupA [(0, Model_new 5)] 0 = some (Model_new 5) ∧
      (ModelUpdateSystem_run ⟨0, []⟩ [(0, Model_new 5)] []
          [ComponentEvent.inserted 0] []).mm.calls = [] := by
  refine ⟨?_, rfl, ?_⟩ <;> rfl

/-- C2 amended: in a Model-Sync pass starting from an empty call log,
every `update_model` call is issued for an entity whose Model holds that
very handle; and exactly one `new_model` call is issued per distinct
entity with a drained Model-insertion event that holds both a Model and a
Transform, with the returned handle stored on the Model. -/
theorem modelsync_update_and_create (mm : MeshManager) (models : Store ModelC)
    (transforms : Store Transform) (modelEvents transformEvents : List ComponentEvent)
    (e : Entity) (m : ModelC) (t : Transform)
    (hmm : mm.calls = [])
    (hin : e ∈ insertedIds modelEvents)
    (hmod : lookupA models e = some m)
    (htr : lookupA transforms e = some t) :
    (∃ h, createsFor (ModelUpdateSystem_run mm models transforms modelEvents
          transformEvents).mm.calls e
        = [RenderCall.new_model m.mesh_id e h] ∧
      lookupA (ModelUpdateSystem_run mm models transforms modelEvents
          transformEvents).models e = some { m with model_id := some h }) ∧
      ∀ c ∈ (ModelUpdateSystem_run mm models transforms modelEvents
          transformEvents).mm.calls,
        updateJustified (ModelUpdateSystem_run mm models transforms modelEvents
          transformEvents).models c := by
  have hnodup : (insertedIds modelEvents).Nodup := List.nodup_dedup _
  obtain ⟨l1, l2, hsplit⟩ := List.append_of_mem hin
  rw [hsplit] at hnodup
  have he1 : e ∉ l1 := fun hcon =>
    (List.disjoint_of_nodup_append hnodup) hcon (List.mem_cons_self e l2)
  have he2 : e ∉ l2 := fun hcon => (List.nodup_cons.mp hnodup.of_append_right).1 hcon
  unfold ModelUpdateSystem_run
  constructor
  · -- exactly one creation for e, handle stored
    rw [hsplit, List.foldl_append, List.foldl_cons]
    set out0 : ModelSyncOut := ⟨mm, models⟩ with hout0
    obtain ⟨p1, p2⟩ := modelCreateFold_untouched transforms l1 e he1 out0
    set mid1 := l1.foldl (modelCreateStep transforms) out0 with hmid1
    have hm1 : lookupA mid1.models e = some m := by rw [p2]; exact hmod
    have hstep1 : createsFor (modelCreateStep transforms mid1 e).mm.calls e
        = createsFor mid1.mm.calls e
            ++ [RenderCall.new_model m.mesh_id e mid1.mm.next_model] := by
      simp [modelCreateStep, hm1, htr, createsFor, List.filter_append]
    have hstep2 : lookupA (modelCreateStep transforms mid1 e).models e
        = some { m with model_id := some mid1.mm.next_model } := by
      simp only [modelCreateStep, hm1, htr]
      simpa using lookupA_setA_self mid1.models e _
    obtain ⟨q1, q2⟩ :=
      modelCreateFold_untouched transforms l2 e he2 (modelCreateStep transforms mid1 e)
    obtain ⟨u1, u2⟩ := modelUpdateFold_frame transforms (modifiedIds transformEvents) e
      (l2.foldl (modelCreateStep transforms) (modelCreateStep transforms mid1 e))
    refine ⟨mid1.mm.next_model, ?_, ?_⟩
    · rw [u2, q1, hstep1, p1]
      simp [hout0, createsFor, hmm]
    · rw [u1, q2, hstep2]
  · -- every update call is justified by the final model storage
    apply modelUpdateFold_justified
    intro c hc
    have hshape := modelCreateFold_shapes transforms (insertedIds modelEvents)
      ⟨mm, models⟩ (by rw [hmm]; intro c hc; cases hc) c hc
    cases c with
    | new_model mesh ent h => trivial
    | update_model mesh h ent => exact absurd hshape (by simp [isNewModelCall])

/-- Witness for the amended C2: entity 0 with Model and Transform and one
insertion event. -/
theorem modelsync_update_and_create_witness :
    (∃ h, createsFor (ModelUpdateSystem_run ⟨0, []⟩ [(0, Model_new 5)]
          [(0, Transform.from_position 0 0 0)] [ComponentEvent.inserted 0] []).mm.calls 0
        = [RenderCall.new_model 5 0 h] ∧
      lookupA (ModelUpdateSystem_run ⟨0, []⟩ [(0, Model_new 5)]
          [(0, Transform.from_position 0 0 0)] [ComponentEvent.inserted 0] []).models 0
        = some { Model_new 5 with model_id := some h }) ∧
      ∀ c ∈ (ModelUpdateSystem_run ⟨0, []⟩ [(0, Model_new 5)]
          [(0, Transform.from_position 0 0 0)] [ComponentEvent.inserted 0] []).mm.calls,
        updateJustified (ModelUpdateSystem_run ⟨0, []⟩ [(0, Model_new 5)]
          [(0, Transform.from_position 0 0 0)] [ComponentEvent.inserted 0] []).models c :=
  modelsync_update_and_create ⟨0, []⟩ [(0, Model_new 5)]
    [(0, Transform.from_position 0 0 0)] [ComponentEvent.inserted 0] [] 0 (Model_new 5)
    (Transform.from_position 0 0 0) rfl (by simp [insertedIds]) rfl rfl

/-- C7: from level 1 and countdown 0 with an empty roster, one
`AsteroidFieldSystem::run` tick raises the level to 2, resets the
countdown to `200 - 2*6 = 188` and appends exactly one asteroid to the
roster; and whenever the level is at or above the cap of 30, the tick
leaves the level unchanged. -/
theorem asteroid_field_scenario (transforms : Store Transform) (alive : List Entity)
    (rng rng2 : FieldRng) (fresh fresh2 : Entity) (tr2 : Store Transform)
    (al2 : List Entity) (q2 : List Entity) (fld : AsteroidField) (out2 : FieldRunOut)
    (hcap : max_level ≤ fld.level)
    (hrun : AsteroidFieldSystem_run tr2 al2 rng2 fresh2 q2 fld = some out2) :
    (∃ out, AsteroidFieldSystem_run transforms alive rng fresh [] ⟨[], 0, 1, 15⟩
        = some out ∧
      out.field.level = 2 ∧ out.field.tick = 188 ∧ out.field.asteroids.length = 1) ∧
      out2.field.level = fld.level := by
  constructor
  · exact ⟨_, rfl, rfl, rfl, rfl⟩
  · simp only [AsteroidFieldSystem_run] at hrun
    cases hmarks : rosterMarks tr2 fld.x_range
        (fld.asteroids.filter (fun a => al2.contains a)) q2 with
    | none =>
      rw [hmarks] at hrun
      exact Option.noConfusion hrun
    | some marks =>
      simp only [hmarks] at hrun
      have hlt : ¬ fld.level < max_level := not_lt.mpr hcap
      by_cases htick : fld.tick > 0
      · rw [if_pos htick] at hrun
        injection hrun with h
        subst h
        rfl
      · rw [if_neg htick] at hrun
        injection hrun with h
        subst h
        simp [hlt]

/-- Witness for C7 at concrete inputs, level at the cap for the second
conjunct. -/
theorem asteroid_field_scenario_witness :
    (∃ out, AsteroidFieldSystem_run [] [] c7Rng 7 [] ⟨[], 0, 1, 15⟩ = some out ∧
      out.field.level = 2 ∧ out.field.tick = 188 ∧ out.field.asteroids.length = 1) ∧
      c7Out.field.level = c7Field.level :=
  asteroid_field_scenario [] [] c7Rng c7Rng 7 99 [] [] [] c7Field c7Out
    (by decide) rfl

theorem range_filter_lt_card (n m : Nat) :
    ((Finset.range n).filter (fun r => r < m)).card = min m n := by
  have hset : (Finset.range n).filter (fun r => r < m) = Finset.range (min m n) := by
    ext x
    simp [Finset.mem_filter, Finset.mem_range, Nat.lt_min, and_comm]
  rw [hset, Finset.card_range]

theorem attackFrac_eq (l : Nat) (h : l ≤ max_level) :
    attackFrac l = 4 / ((rollBound l : ℚ)) := by
  unfold attackFrac
  rw [range_filter_lt_card]
  have hmin : min 4 (rollBound l) = 4 := by
    apply min_eq_left
    unfold rollBound max_level at *
    omega
  rw [hmin]
  norm_num

/-- C8 counterexample: at levels 2 < 3 (both below the cap of 30), the
fraction of draws selecting the attack branch is 4/33 at level 2 and 4/32
at level 3 — it increases with the level, refuting the claim that it
decreases. -/
theorem attack_fraction_counterexample : ¬ (attackFrac 3 ≤ attackFrac 2) := by
  rw [attackFrac_eq 3 (by norm_num [max_level]), attackFrac_eq 2 (by norm_num [max_level])]
  norm_num [rollBound, max_level]

/-- C8 amended: the probability of the attack trajectory increases (weakly)
as the difficulty level rises toward the cap: for l1 < l2 ≤ 30 the
fraction of draws selecting the attack branch at l2 is at least that at
l1. -/
theorem attack_probability_increases (l1 l2 : Nat) (h12 : l1 < l2) (h2 : l2 ≤ max_level) :
    attackFrac l1 ≤ attackFrac l2 := by
  rw [attackFrac_eq l1 (le_of_lt (lt_of_lt_of_le h12 h2)), attackFrac_eq l2 h2]
  have hb2 : (0 : ℚ) < (rollBound l2 : ℚ) := by
    have h0 : 0 < rollBound l2 := by unfold rollBound; omega
    exact_mod_cast h0
  have hle : (rollBound l2 : ℚ) ≤ (rollBound l1 : ℚ) := by
    have h0 : rollBound l2 ≤ rollBound l1 := by
      unfold rollBound max_level at *
      omega
    exact_mod_cast h0
  gcongr

/-- Witness for the amended C8 at levels 2 < 3. -/
theorem attack_probability_increases_witness : attackFrac 2 ≤ attackFrac 3 :=
  attack_probability_increases 2 3 (by norm_num) (by norm_num [max_level])
